import Mathlib

/-!
Verification of the hazard-assessment application (`App.py`).

The Python source is shallowly embedded:

* Python `str` values that are scanned character by character become `List Char`
  (opaque labels and keys stay `String`);
* Python `int` becomes `Int`;
* fallible or dynamically typed code returns `Option`;
* `re.split` with the fixed pattern `\s*(?:,|/| und | & )\s*` is modelled by an
  explicit left-to-right scanner with a greedy, backtracking whitespace prefix,
  mirroring the behaviour of the Python regex engine on this pattern;
* `json.dumps`/`json.loads` are modelled at the level of the JSON value tree.
-/

/-- Model of Python's `\s` character class (`re.UNICODE` on `str`). -/
def isPySpace (c : Char) : Bool :=
  c == ' ' || c == '\t' || c == '\n' || c == '\r' || c == '\x0b' || c == '\x0c' ||
  c == '\x1c' || c == '\x1d' || c == '\x1e' || c == '\x1f' || c == '\u0085' ||
  c == ' ' || c == ' ' || (0x2000 ≤ c.toNat && c.toNat ≤ 0x200a) ||
  c == ' ' || c == ' ' || c == ' ' || c == ' ' || c == '　'

/-- Model of Python `str.strip()` (no argument): drop leading and trailing
whitespace. -/
def pyStrip (l : List Char) : List Char :=
  ((l.dropWhile isPySpace).reverse.dropWhile isPySpace).reverse

/-- Match a literal character sequence `pat` as a prefix of `s`; on success
return the remainder of `s`. -/
def dropLit : List Char → List Char → Option (List Char)
  | [], s => some s
  | _ :: _, [] => none
  | p :: ps, c :: cs => if c = p then dropLit ps cs else none

/-- The four delimiter alternatives of `_SPLIT_PATTERN`, in the order of the
regex alternation `(?:,|/| und | & )`. -/
def matchDelim (s : List Char) : Option (List Char) :=
  match dropLit [','] s with
  | some r => some r
  | none =>
    match dropLit ['/'] s with
    | some r => some r
    | none =>
      match dropLit [' ', 'u', 'n', 'd', ' '] s with
      | some r => some r
      | none => dropLit [' ', '&', ' '] s

/-- Delimiter alternative followed by the greedy trailing `\s*` of
`_SPLIT_PATTERN`. -/
def matchCore (s : List Char) : Option (List Char) :=
  match matchDelim s with
  | some r => some (r.dropWhile isPySpace)
  | none => none

/-- Full match of `_SPLIT_PATTERN` anchored at the current position: the
leading `\s*` is greedy and backtracks one character at a time, exactly as the
regex engine does. On success, the remainder after the whole match. -/
def tryWs : List Char → Option (List Char)
  | [] => none
  | c :: r =>
    if isPySpace c then
      match tryWs r with
      | some rest => some rest
      | none => matchCore (c :: r)
    else matchCore (c :: r)

/-- Fuelled scanning loop of `re.split`: try a match at each position from left
to right, cutting a token at each match.  `fuel` only serves termination; it is
initialised with the length of the input, which always suffices because a match
consumes at least one character. -/
def goF : Nat → List Char → List Char → List (List Char)
  | 0, acc, s => [acc.reverse ++ s]
  | _ + 1, acc, [] => [acc.reverse]
  | fuel + 1, acc, c :: r =>
    match tryWs (c :: r) with
    | some rest => acc.reverse :: goF fuel [] rest
    | none => goF fuel (c :: acc) r

/-- Model of `_SPLIT_PATTERN.split(text)`. -/
def reSplit (l : List Char) : List (List Char) := goF l.length [] l

/-- `true` iff one of the four delimiter alternatives occurs somewhere in
`l` (entirely inside `l`). -/
def hasCoreB : List Char → Bool
  | [] => false
  | c :: r => (matchDelim (c :: r)).isSome || hasCoreB r

/-- The `seen`/`uniq` duplicate-elimination loop of `split_hazard_text`:
`seen` is the set of already emitted tokens (modelled as a list with
membership), tokens are kept in first-occurrence order. -/
def dedupSeen (seen : List (List Char)) : List (List Char) → List (List Char)
  | [] => []
  | p :: ps => if p ∈ seen then dedupSeen seen ps else p :: dedupSeen (p :: seen) ps

/-- Model of `split_hazard_text` (App.py lines 343-354):
`if not text: return []`, split on the pattern, keep the stripped parts that
are non-empty, eliminate duplicates keeping order, and fall back to
`[text.strip()]` when nothing remains. -/
def split_hazard_text (text : List Char) : List (List Char) :=
  if text = [] then []
  else
    let parts := ((reSplit text).filter (fun p => !p.isEmpty && !(pyStrip p).isEmpty)).map pyStrip
    let uniq := dedupSeen [] parts
    if uniq = [] then [pyStrip text] else uniq

/-- Fuelled first-occurrence duplicate removal (specification side):
keep the head, remove all its later copies, recurse. -/
def dedupFuel {α : Type} [DecidableEq α] : Nat → List α → List α
  | 0, _ => []
  | _ + 1, [] => []
  | fuel + 1, x :: xs => x :: dedupFuel fuel (xs.filter (fun y => decide (y ≠ x)))

/-- First-occurrence duplicate removal (specification side). -/
def dedupFirst {α : Type} [DecidableEq α] (xs : List α) : List α :=
  dedupFuel xs.length xs

/-- The splitter as the specification describes it: tokenize on the delimiter
pattern, trim each token, drop tokens that are empty after trimming, remove
duplicates keeping first-occurrence order, and fall back to the single trimmed
input when no token remains. -/
def specSplit (text : List Char) : List (List Char) :=
  if text = [] then []
  else
    let toks := dedupFirst (((reSplit text).map pyStrip).filter (fun p => !p.isEmpty))
    if toks = [] then [pyStrip text] else toks

/-- Model of `compute_risk` (App.py lines 73-82).  The Python code indexes
`thresholds[0]`, `thresholds[1]`, `thresholds[2]` and is only called with
three-element lists; the embedding uses `getD` with an irrelevant default. -/
def compute_risk (prob sev : Int) (thresholds : List Int) : Int × String :=
  let v := prob * sev
  if v ≤ thresholds.getD 0 0 then (v, "niedrig")
  else if v ≤ thresholds.getD 1 0 then (v, "mittel")
  else if v ≤ thresholds.getD 2 0 then (v, "hoch")
  else (v, "sehr hoch")

/-- Model of the `Measure` dataclass (App.py lines 29-36). -/
structure Measure where
  title : String
  stop_level : String
  responsible : String := ""
  due_date : Option String := none
  status : String := "offen"
  notes : String := ""
deriving DecidableEq

/-- Model of the `Hazard` dataclass (App.py lines 38-53). -/
structure Hazard where
  id : String
  area : String
  activity : String
  hazard : String
  sources : List String
  existing_controls : List String
  prob : Int := 3
  sev : Int := 3
  risk_value : Int := 9
  risk_level : String := "mittel"
  additional_measures : List Measure := []
  last_review : Option String := none
  reviewer : String := ""
  documentation_note : String := ""
deriving DecidableEq

/-- Model of the `Assessment` dataclass (App.py lines 55-67).  The
`risk_matrix_thresholds` dict is modelled as an association list. -/
structure Assessment where
  company : String
  location : String
  created_at : String
  created_by : String
  industry : String := "Hotel/Gastgewerbe"
  scope_note : String := ""
  risk_matrix_thresholds : List (String × List Int) := [("thresholds", [6, 12, 16])]
  hazards : List Hazard := []
  measures_plan_note : String := ""
  documentation_note : String := ""
  next_review_hint : String := ""
deriving DecidableEq

/-- JSON value tree, the common image of `json.dumps` and `json.loads` for the
data this application handles (objects modelled as association lists with
distinct keys). -/
inductive J where
  | null : J
  | jstr : String → J
  | jint : Int → J
  | jarr : List J → J
  | jobj : List (String × J) → J

/-- Python `dict` lookup on the association-list model. -/
def jLookup : List (String × J) → String → Option J
  | [], _ => none
  | (k, v) :: rest, key => if k = key then some v else jLookup rest key

/-- Model of `h.get(key, default)` followed by use at type `α`: a present key
must decode, an absent key yields the default. -/
def jGet {α : Type} (kvs : List (String × J)) (key : String) (f : J → Option α)
    (dflt : α) : Option α :=
  match jLookup kvs key with
  | some v => f v
  | none => some dflt

/-- Model of the mandatory access `h[key]`: an absent key is an error. -/
def jRequire {α : Type} (kvs : List (String × J)) (key : String)
    (f : J → Option α) : Option α :=
  match jLookup kvs key with
  | some v => f v
  | none => none

def decodeStr : J → Option String
  | .jstr s => some s
  | _ => none

def decodeInt : J → Option Int
  | .jint n => some n
  | _ => none

def decodeOptStr : J → Option (Option String)
  | .null => some none
  | .jstr s => some (some s)
  | _ => none

/-- Decode every element of a list, failing if any element fails. -/
def decodeAll {α β : Type} (f : α → Option β) : List α → Option (List β)
  | [] => some []
  | x :: xs =>
    match f x, decodeAll f xs with
    | some b, some bs => some (b :: bs)
    | _, _ => none

def decodeStrList (j : J) : Option (List String) :=
  match j with
  | .jarr xs => decodeAll decodeStr xs
  | _ => none

def decodeIntList (j : J) : Option (List Int) :=
  match j with
  | .jarr xs => decodeAll decodeInt xs
  | _ => none

/-- Decode the `risk_matrix_thresholds` object. -/
def decodeThresholds (j : J) : Option (List (String × List Int)) :=
  match j with
  | .jobj kvs =>
    decodeAll (fun kv =>
      match decodeIntList kv.2 with
      | some l => some (kv.1, l)
      | none => none) kvs
  | _ => none

def jOfOptStr : Option String → J
  | none => .null
  | some s => .jstr s

def strListToJson (xs : List String) : J := .jarr (xs.map J.jstr)

/-- `asdict` on a `Measure` (field order of the dataclass). -/
def measure_to_json (m : Measure) : J :=
  .jobj [("title", .jstr m.title), ("stop_level", .jstr m.stop_level),
         ("responsible", .jstr m.responsible), ("due_date", jOfOptStr m.due_date),
         ("status", .jstr m.status), ("notes", .jstr m.notes)]

/-- `asdict` on a `Hazard`. -/
def hazard_to_json (h : Hazard) : J :=
  .jobj [("id", .jstr h.id), ("area", .jstr h.area), ("activity", .jstr h.activity),
         ("hazard", .jstr h.hazard), ("sources", strListToJson h.sources),
         ("existing_controls", strListToJson h.existing_controls),
         ("prob", .jint h.prob), ("sev", .jint h.sev),
         ("risk_value", .jint h.risk_value), ("risk_level", .jstr h.risk_level),
         ("additional_measures", .jarr (h.additional_measures.map measure_to_json)),
         ("last_review", jOfOptStr h.last_review), ("reviewer", .jstr h.reviewer),
         ("documentation_note", .jstr h.documentation_note)]

/-- Model of `as_json` (App.py lines 308-309): `json.dumps(asdict(assess))`,
with the serialised text represented by its JSON value tree. -/
def as_json (a : Assessment) : J :=
  .jobj [("company", .jstr a.company), ("location", .jstr a.location),
         ("created_at", .jstr a.created_at), ("created_by", .jstr a.created_by),
         ("industry", .jstr a.industry), ("scope_note", .jstr a.scope_note),
         ("risk_matrix_thresholds",
           .jobj (a.risk_matrix_thresholds.map (fun kv => (kv.1, .jarr (kv.2.map J.jint))))),
         ("hazards", .jarr (a.hazards.map hazard_to_json)),
         ("measures_plan_note", .jstr a.measures_plan_note),
         ("documentation_note", .jstr a.documentation_note),
         ("next_review_hint", .jstr a.next_review_hint)]

/-- The dataclass field names accepted by `Measure(**m)`; any other key is a
`TypeError`. -/
def measureKeys : List String :=
  ["title", "stop_level", "responsible", "due_date", "status", "notes"]

/-- Model of `Measure(**m)` inside `from_json`: `title` and `stop_level` are
mandatory, the remaining fields take the dataclass defaults, unknown keys are
rejected. -/
def measure_from_json (j : J) : Option Measure :=
  match j with
  | .jobj kvs =>
    if kvs.all (fun kv => measureKeys.contains kv.1) then
      match jRequire kvs "title" decodeStr, jRequire kvs "stop_level" decodeStr,
            jGet kvs "responsible" decodeStr "", jGet kvs "due_date" decodeOptStr none,
            jGet kvs "status" decodeStr "offen", jGet kvs "notes" decodeStr "" with
      | some title, some stop_level, some responsible, some due_date, some status, some notes =>
        some ⟨title, stop_level, responsible, due_date, status, notes⟩
      | _, _, _, _, _, _ => none
    else none
  | _ => none

/-- Model of `[Measure(**m) for m in h.get("additional_measures", [])]`:
an absent key yields `[]`, a present key must be an array of measure
objects. -/
def decodeMeasuresField (kvs : List (String × J)) : Option (List Measure) :=
  match jLookup kvs "additional_measures" with
  | some (.jarr ms) => decodeAll measure_from_json ms
  | some _ => none
  | none => some []

/-- Model of `h.get("existing_controls", h.get("existing", []))` (App.py line
319, the backward-compatible fallback). -/
def decodeExistingField (kvs : List (String × J)) : Option (List String) :=
  match jLookup kvs "existing_controls" with
  | some v => decodeStrList v
  | none =>
    match jLookup kvs "existing" with
    | some v => decodeStrList v
    | none => some []

/-- Model of the per-hazard part of `from_json` (App.py lines 314-324), on the
key/value pairs of one hazard object: `id`/`area`/`activity`/`hazard` are
mandatory, `existing_controls` falls back to the legacy key `existing` and
then to `[]`, the remaining keys default. -/
def hazard_from_json_kvs (kvs : List (String × J)) : Option Hazard := do
    let measures ← decodeMeasuresField kvs
    let id ← jRequire kvs "id" decodeStr
    let area ← jRequire kvs "area" decodeStr
    let activity ← jRequire kvs "activity" decodeStr
    let hazardTxt ← jRequire kvs "hazard" decodeStr
    let sources ← jGet kvs "sources" decodeStrList []
    let existing_controls ← decodeExistingField kvs
    let prob ← jGet kvs "prob" decodeInt 3
    let sev ← jGet kvs "sev" decodeInt 3
    let risk_value ← jGet kvs "risk_value" decodeInt 9
    let risk_level ← jGet kvs "risk_level" decodeStr "mittel"
    let last_review ← jGet kvs "last_review" decodeOptStr none
    let reviewer ← jGet kvs "reviewer" decodeStr ""
    let documentation_note ← jGet kvs "documentation_note" decodeStr ""
    some ⟨id, area, activity, hazardTxt, sources, existing_controls, prob, sev,
          risk_value, risk_level, measures, last_review, reviewer, documentation_note⟩

/-- The hazard decoder on a JSON value: anything but an object is an error
(Python would fail indexing `h["id"]`). -/
def hazard_from_json (j : J) : Option Hazard :=
  match j with
  | .jobj kvs => hazard_from_json_kvs kvs
  | _ => none

/-- Model of the hazards loop of `from_json`:
`for h in data.get("hazards", []): hazards.append(Hazard(...))`. -/
def decodeHazardsField (kvs : List (String × J)) : Option (List Hazard) :=
  match jLookup kvs "hazards" with
  | some (.jarr hs) => decodeAll hazard_from_json hs
  | some _ => none
  | none => some []

/-- Model of `from_json` (App.py lines 311-332) applied to the parsed value
tree. -/
def from_json (j : J) : Option Assessment :=
  match j with
  | .jobj kvs => do
    let hazards ← decodeHazardsField kvs
    let company ← jGet kvs "company" decodeStr ""
    let location ← jGet kvs "location" decodeStr ""
    let created_at ← jGet kvs "created_at" decodeStr ""
    let created_by ← jGet kvs "created_by" decodeStr ""
    let industry ← jGet kvs "industry" decodeStr "Hotel/Gastgewerbe"
    let scope_note ← jGet kvs "scope_note" decodeStr ""
    let risk_matrix_thresholds ←
      jGet kvs "risk_matrix_thresholds" decodeThresholds [("thresholds", [6, 12, 16])]
    let measures_plan_note ← jGet kvs "measures_plan_note" decodeStr ""
    let documentation_note ← jGet kvs "documentation_note" decodeStr ""
    let next_review_hint ← jGet kvs "next_review_hint" decodeStr ""
    some ⟨company, location, created_at, created_by, industry, scope_note,
          risk_matrix_thresholds, hazards, measures_plan_note, documentation_note,
          next_review_hint⟩
  | _ => none

/-- `from_json` on a whole upload: `json.loads` raising on malformed input is
modelled by the `none` case of the parse result. -/
def load_assessment (parsed : Option J) : Option Assessment :=
  match parsed with
  | none => none
  | some j => from_json j

/-- A measure entry of a template item: in the library these are either dicts
built by `M(...)` (with optional `title`, `stop_level`, `notes` keys; an absent
or `None` title is modelled by `none`), bare strings, or anything else. -/
inductive TMeasure where
  | dict (title : Option String) (stop_level : Option String) (notes : Option String)
  | str (s : String)
  | other

/-- Python `str.strip()` on the `String` wrapper. -/
def pyStripStr (s : String) : String := (pyStrip s.toList).asString

/-- Model of `normalize_measure` inside `add_template_items` (App.py lines
647-658): a dict yields a `Measure` with stripped title and defaulted
`stop_level`/`notes`; a string yields a `Measure` from its stripped text, or
`None` if that is empty; anything else yields `None`. -/
def normalize_measure (m : TMeasure) : Option Measure :=
  match m with
  | .dict title stop_level notes =>
    some ⟨pyStripStr (title.getD ""), stop_level.getD "O (Organisatorisch)", "",
          none, "offen", notes.getD ""⟩
  | .str s =>
    let t := pyStripStr s
    if t = "" then none else some ⟨t, "O (Organisatorisch)", "", none, "offen", ""⟩
  | .other => none

/-- The measure-appending loop of `add_template_items` (App.py lines 678-681):
`mm = normalize_measure(m); if mm and mm.title: append`. -/
def collect_measures (ms : List TMeasure) : List Measure :=
  ms.filterMap (fun m =>
    match normalize_measure m with
    | some mm => if mm.title = "" then none else some mm
    | none => none)

/-- The hazard built for one split hazard text of a template item (App.py
lines 670-682): dataclass defaults `prob=3`, `sev=3`, `risk_value=9`,
`risk_level="mittel"`, then the normalized measures are appended.  The
time-based `new_id()` is passed in as a parameter. -/
def template_hazard (id area activity hz_text : String)
    (sources existing : List String) (measures : List TMeasure) : Hazard :=
  { id := id, area := area, activity := activity, hazard := hz_text,
    sources := sources, existing_controls := existing,
    prob := 3, sev := 3, risk_value := 9, risk_level := "mittel",
    additional_measures := collect_measures measures,
    last_review := none, reviewer := "", documentation_note := "" }

/-- Model of the re-scoring in tab 3 `Beurteilen` (App.py lines 1005-1008):
the sliders write `prob` and `sev`, then
`hz.risk_value, hz.risk_level = compute_risk(hz.prob, hz.sev, thresholds)`. -/
def reassess (h : Hazard) (p s : Int) (thresholds : List Int) : Hazard :=
  let r := compute_risk p s thresholds
  { h with prob := p, sev := s, risk_value := r.1, risk_level := r.2 }

/-- The risk invariant of the specification: the stored sum is the product and
the stored level is what `compute_risk` yields for it under the configured
thresholds. -/
def risk_invariant (h : Hazard) (thresholds : List Int) : Prop :=
  h.risk_value = h.prob * h.sev ∧
  h.risk_level = (compute_risk h.prob h.sev thresholds).2

/-- Model of the delete handler of tab 2 (App.py line 978):
`assess.hazards = [h for h in assess.hazards if h.id != sel_id]`. -/
def delete_hazard (hs : List Hazard) (sel_id : String) : List Hazard :=
  hs.filter (fun h => h.id != sel_id)

/-! ### Helper lemmas about `pyStrip` -/

theorem pyStrip_eq_rdropWhile (l : List Char) :
    pyStrip l = (l.dropWhile isPySpace).rdropWhile isPySpace := rfl

theorem pyStrip_nil : pyStrip [] = [] := rfl

theorem pyStrip_idem (l : List Char) : pyStrip (pyStrip l) = pyStrip l := by
  rw [pyStrip_eq_rdropWhile, pyStrip_eq_rdropWhile]
  have hpre : (l.dropWhile isPySpace).rdropWhile isPySpace <+: l.dropWhile isPySpace :=
    List.rdropWhile_prefix _ _
  have hself : ((l.dropWhile isPySpace).rdropWhile isPySpace).dropWhile isPySpace =
      (l.dropWhile isPySpace).rdropWhile isPySpace := by
    rw [List.dropWhile_eq_self_iff]
    intro hl
    have hlen : 0 < (l.dropWhile isPySpace).length :=
      lt_of_lt_of_le hl hpre.length_le
    have hget := List.dropWhile_get_zero_not isPySpace l hlen
    simpa [List.get_eq_getElem, hpre.getElem hl] using hget
  rw [hself, List.rdropWhile_idempotent]

theorem pyStrip_eq_nil_of_all (l : List Char) (h : ∀ c ∈ l, isPySpace c = true) :
    pyStrip l = [] := by
  have : l.dropWhile isPySpace = [] := List.dropWhile_eq_nil_iff.mpr h
  simp [pyStrip, this]

theorem ne_nil_of_pyStrip_ne_nil {l : List Char} (h : pyStrip l ≠ []) : l ≠ [] := by
  intro hl
  rw [hl] at h
  exact h pyStrip_nil

/-! ### Helper lemmas about the `re.split` model -/

theorem dropLit_eq_append {pat s r : List Char} (h : dropLit pat s = some r) :
    s = pat ++ r := by
  induction pat generalizing s with
  | nil =>
    simp only [dropLit, Option.some.injEq] at h
    simpa using h
  | cons p ps ih =>
    cases s with
    | nil => simp [dropLit] at h
    | cons c cs =>
      simp only [dropLit] at h
      split at h
      · next hc => simpa [hc] using ih h
      · exact absurd h (by simp)

theorem matchDelim_some_chars {s r : List Char} (h : matchDelim s = some r) :
    ',' ∈ s ∨ '/' ∈ s ∨ 'u' ∈ s ∨ '&' ∈ s := by
  unfold matchDelim at h
  split at h
  · next heq => left; rw [dropLit_eq_append heq]; simp
  · split at h
    · next heq => right; left; rw [dropLit_eq_append heq]; simp
    · split at h
      · next heq =>
        right; right; left
        rw [dropLit_eq_append heq]; simp
      · right; right; right
        rw [dropLit_eq_append h]; simp

theorem matchCore_some {s t : List Char} (h : matchCore s = some t) :
    (matchDelim s).isSome = true := by
  unfold matchCore at h
  rcases hm : matchDelim s with _ | r
  · rw [hm] at h; exact absurd h (by simp)
  · simp

theorem tryWs_some_hasCore {s t : List Char} (h : tryWs s = some t) :
    hasCoreB s = true := by
  induction s generalizing t with
  | nil => simp [tryWs] at h
  | cons c r ih =>
    rw [tryWs] at h
    rw [hasCoreB, Bool.or_eq_true]
    by_cases hws : isPySpace c = true
    · rw [if_pos hws] at h
      rcases hm : tryWs r with _ | rest
      · rw [hm] at h
        exact Or.inl (matchCore_some h)
      · exact Or.inr (ih hm)
    · rw [if_neg hws] at h
      exact Or.inl (matchCore_some h)

theorem goF_zero (acc s : List Char) : goF 0 acc s = [acc.reverse ++ s] := rfl

theorem goF_succ_nil (f : Nat) (acc : List Char) : goF (f + 1) acc [] = [acc.reverse] := rfl

theorem goF_succ_cons (f : Nat) (acc : List Char) (c : Char) (r : List Char) :
    goF (f + 1) acc (c :: r) =
      match tryWs (c :: r) with
      | some rest => acc.reverse :: goF f [] rest
      | none => goF f (c :: acc) r := rfl

theorem goF_no_core {s : List Char} (h : hasCoreB s = false) :
    ∀ fuel (acc : List Char), goF fuel acc s = [acc.reverse ++ s] := by
  induction s with
  | nil =>
    intro fuel acc
    cases fuel with
    | zero => rw [goF_zero]
    | succ f => rw [goF_succ_nil]; simp
  | cons c r ih =>
    intro fuel acc
    rw [hasCoreB, Bool.or_eq_false_iff] at h
    cases fuel with
    | zero => rw [goF_zero]
    | succ f =>
      rw [goF_succ_cons]
      rcases hm : tryWs (c :: r) with _ | rest
      · simp only [hm]
        rw [ih h.2 f (c :: acc)]
        simp
      · have hcore := tryWs_some_hasCore hm
        have : hasCoreB (c :: r) = false := by
          rw [hasCoreB, h.1, h.2]; rfl
        rw [this] at hcore
        exact absurd hcore (by simp)

theorem reSplit_no_core {l : List Char} (h : hasCoreB l = false) :
    reSplit l = [l] := by
  rw [reSplit, goF_no_core h]
  simp

theorem hasCoreB_false_of_all_ws {l : List Char} (h : ∀ c ∈ l, isPySpace c = true) :
    hasCoreB l = false := by
  induction l with
  | nil => rfl
  | cons c r ih =>
    rw [hasCoreB, Bool.or_eq_false_iff]
    refine ⟨?_, ih fun x hx => h x (List.mem_cons_of_mem c hx)⟩
    rcases hm : matchDelim (c :: r) with _ | cr
    · rfl
    · exfalso
      rcases matchDelim_some_chars hm with hc | hc | hc | hc <;>
        simpa [isPySpace] using h _ hc

/-! ### Helper lemmas about duplicate elimination -/

theorem dedupSeen_subset {p : List Char} :
    ∀ {ps seen : List (List Char)}, p ∈ dedupSeen seen ps → p ∈ ps := by
  intro ps
  induction ps with
  | nil => intro seen h; simp [dedupSeen] at h
  | cons q qs ih =>
    intro seen h
    rw [dedupSeen] at h
    split at h
    · exact List.mem_cons_of_mem q (ih h)
    · rcases List.mem_cons.mp h with hq | hq
      · exact hq ▸ List.mem_cons_self q qs
      · exact List.mem_cons_of_mem q (ih hq)

theorem dedupFuel_congr {α : Type} [DecidableEq α] :
    ∀ (f g : Nat) (xs : List α), xs.length ≤ f → xs.length ≤ g →
      dedupFuel f xs = dedupFuel g xs := by
  intro f
  induction f with
  | zero =>
    intro g xs hf _
    have : xs = [] := List.length_eq_zero.mp (Nat.le_zero.mp hf)
    subst this
    cases g <;> rfl
  | succ f ih =>
    intro g xs hf hg
    cases xs with
    | nil => cases g <;> rfl
    | cons x l =>
      cases g with
      | zero => exact absurd hg (by simp)
      | succ g =>
        rw [dedupFuel, dedupFuel]
        have hlf : (l.filter (fun y => decide (y ≠ x))).length ≤ f :=
          le_trans (List.length_filter_le _ _) (Nat.le_of_succ_le_succ (by simpa using hf))
        have hlg : (l.filter (fun y => decide (y ≠ x))).length ≤ g :=
          le_trans (List.length_filter_le _ _) (Nat.le_of_succ_le_succ (by simpa using hg))
        rw [ih g _ hlf hlg]

theorem dedupSeen_eq_dedupFirst :
    ∀ (ps seen : List (List Char)),
      dedupSeen seen ps = dedupFirst (ps.filter (fun x => decide (x ∉ seen))) := by
  intro ps
  induction ps with
  | nil => intro seen; rfl
  | cons p qs ih =>
    intro seen
    rw [dedupSeen, List.filter_cons]
    by_cases hp : p ∈ seen
    · rw [if_pos hp, if_neg (by simpa using hp)]
      exact ih seen
    · rw [if_neg hp, if_pos (by simpa using hp)]
      rw [dedupFirst, List.length_cons, dedupFuel]
      congr 1
      rw [List.filter_filter]
      have hset : (qs.filter fun a => decide (a ≠ p) && decide (a ∉ seen)) =
          qs.filter fun x => decide (x ∉ p :: seen) := by
        refine List.filter_congr fun a _ => ?_
        by_cases hap : a = p <;> by_cases has : a ∈ seen <;>
          simp [hap, has]
      rw [hset, ih (p :: seen), dedupFirst]
      exact dedupFuel_congr _ _ _ le_rfl
        (by rw [← hset, ← List.filter_filter]; exact List.length_filter_le _ _)

theorem dedupSeen_nil_eq_dedupFirst (ps : List (List Char)) :
    dedupSeen [] ps = dedupFirst ps := by
  rw [dedupSeen_eq_dedupFirst ps []]
  congr 1
  exact List.filter_eq_self.mpr (by intro a _; simp)

/-! ### The two sides of the splitter pipeline agree -/

theorem parts_commute (ts : List (List Char)) :
    (ts.filter (fun p => !p.isEmpty && !(pyStrip p).isEmpty)).map pyStrip
      = (ts.map pyStrip).filter (fun p => !p.isEmpty) := by
  induction ts with
  | nil => rfl
  | cons t ts ih =>
    rw [List.map_cons, List.filter_cons, List.filter_cons]
    by_cases hst : pyStrip t = []
    · have h1 : (!t.isEmpty && !(pyStrip t).isEmpty) = false := by
        simp [hst]
      have h2 : (!(pyStrip t).isEmpty) = false := by simp [hst]
      rw [h1, h2]
      simpa using ih
    · have ht : t ≠ [] := ne_nil_of_pyStrip_ne_nil hst
      have h1 : (!t.isEmpty && !(pyStrip t).isEmpty) = true := by
        simp [hst, List.isEmpty_iff, ht]
      have h2 : (!(pyStrip t).isEmpty) = true := by simp [hst, List.isEmpty_iff]
      rw [h1, h2]
      simp only [if_true, List.map_cons]
      rw [ih]

theorem split_hazard_text_eq_specSplit (l : List Char) :
    split_hazard_text l = specSplit l := by
  unfold split_hazard_text specSplit
  by_cases hl : l = []
  · rw [if_pos hl, if_pos hl]
  · rw [if_neg hl, if_neg hl]
    simp only [parts_commute, dedupSeen_nil_eq_dedupFirst]

/-- Every element the splitter returns is already stripped. -/
theorem split_hazard_text_mem_pyStrip {l p : List Char}
    (hp : p ∈ split_hazard_text l) : pyStrip p = p := by
  unfold split_hazard_text at hp
  by_cases hl : l = []
  · rw [if_pos hl] at hp; simp at hp
  · rw [if_neg hl] at hp
    simp only [] at hp
    split at hp
    · rcases List.mem_singleton.mp hp with rfl
      exact pyStrip_idem l
    · have := dedupSeen_subset hp
      rcases List.mem_map.mp this with ⟨t, _, rfl⟩
      exact pyStrip_idem t

/-- On a non-empty input without any delimiter occurrence the splitter returns
the stripped input as a single token. -/
theorem split_hazard_text_no_delim {l : List Char} (hl : l ≠ [])
    (hc : hasCoreB l = false) : split_hazard_text l = [pyStrip l] := by
  unfold split_hazard_text
  rw [if_neg hl, reSplit_no_core hc]
  by_cases hst : pyStrip l = []
  · have hcond : ((!l.isEmpty && !(pyStrip l).isEmpty) : Bool) = false := by
      simp [hst]
    simp only [List.filter_cons, hcond, List.filter_nil, if_false, List.map_nil, dedupSeen]
    simp
  · have hcond : ((!l.isEmpty && !(pyStrip l).isEmpty) : Bool) = true := by
      simp [hst, List.isEmpty_iff, hl]
    simp only [List.filter_cons, hcond, List.filter_nil, if_true, List.map_cons,
      List.map_nil, dedupSeen]
    simp [hst]

/-! ### Claim C1 -/

theorem compute_risk_eq (p s t1 t2 t3 : Int) :
    compute_risk p s [t1, t2, t3] =
      (p * s,
        if p * s ≤ t1 then "niedrig"
        else if p * s ≤ t2 then "mittel"
        else if p * s ≤ t3 then "hoch"
        else "sehr hoch") := by
  have e0 : ([t1, t2, t3] : List Int).getD 0 0 = t1 := rfl
  have e1 : ([t1, t2, t3] : List Int).getD 1 0 = t2 := rfl
  have e2 : ([t1, t2, t3] : List Int).getD 2 0 = t3 := rfl
  unfold compute_risk
  rw [e0, e1, e2]
  dsimp only []
  split_ifs <;> rfl

/-- C1: for `prob` and `sev` in `[1,5]` and a three-element threshold list
`[t1,t2,t3]`, `compute_risk` returns the pair of `prob*sev` and the level
`"niedrig"`/`"mittel"`/`"hoch"`/`"sehr hoch"` according to the bands
`≤t1` / `≤t2` / `≤t3` / above; in particular
`compute_risk 1 1 [6,12,16] = (1, "niedrig")` and
`compute_risk 5 5 [6,12,16] = (25, "sehr hoch")`. -/
theorem compute_risk_banding :
    (∀ prob sev t1 t2 t3 : Int, 1 ≤ prob → prob ≤ 5 → 1 ≤ sev → sev ≤ 5 →
      (compute_risk prob sev [t1, t2, t3]).1 = prob * sev ∧
      ((compute_risk prob sev [t1, t2, t3]).2 = "niedrig" ↔ prob * sev ≤ t1) ∧
      ((compute_risk prob sev [t1, t2, t3]).2 = "mittel" ↔
        t1 < prob * sev ∧ prob * sev ≤ t2) ∧
      ((compute_risk prob sev [t1, t2, t3]).2 = "hoch" ↔
        t1 < prob * sev ∧ t2 < prob * sev ∧ prob * sev ≤ t3) ∧
      ((compute_risk prob sev [t1, t2, t3]).2 = "sehr hoch" ↔
        t1 < prob * sev ∧ t2 < prob * sev ∧ t3 < prob * sev)) ∧
    compute_risk 1 1 [6, 12, 16] = (1, "niedrig") ∧
    compute_risk 5 5 [6, 12, 16] = (25, "sehr hoch") := by
  refine ⟨?_, by decide, by decide⟩
  intro prob sev t1 t2 t3 _ _ _ _
  rw [compute_risk_eq]
  dsimp only []
  refine ⟨rfl, ?_, ?_, ?_, ?_⟩ <;>
  · generalize prob * sev = v
    split_ifs with h1 h2 h3 <;>
      first
        | exact iff_of_true rfl (by omega)
        | exact iff_of_false (by decide) (by omega)

theorem compute_risk_banding_witness :
    (compute_risk 2 4 [6, 12, 16]).2 = "mittel" :=
  ((compute_risk_banding.1 2 4 6 12 16 (by decide) (by decide) (by decide)
    (by decide)).2.2.1).mpr (by decide)

/-! ### Claim C3 -/

/-- C3 counterexample: on an input with no delimiter the splitter does not
fall back to the original string but to its whitespace-trimmed form:
`split_hazard_text " a " = ["a"] ≠ [" a "]`. -/
theorem split_fallback_strips_cex :
    split_hazard_text " a ".toList = ["a".toList] ∧
    "a".toList ≠ " a ".toList := by decide

/-- C3 (amended): for every input, `split_hazard_text` tokenizes on the
delimiter pattern, trims each token, drops tokens that are empty after
trimming, removes duplicates keeping first-occurrence order, and falls back to
the single-element list containing the *whitespace-trimmed* original when no
token remains; in particular a non-empty input without any delimiter
occurrence yields its trimmed form as the only token. -/
theorem split_hazard_text_pipeline :
    (∀ l : List Char, split_hazard_text l = specSplit l) ∧
    (∀ l : List Char, l ≠ [] → hasCoreB l = false →
      split_hazard_text l = [pyStrip l]) :=
  ⟨split_hazard_text_eq_specSplit, fun _ hl hc => split_hazard_text_no_delim hl hc⟩

theorem split_hazard_text_pipeline_witness :
    split_hazard_text "Fettbrand".toList = [pyStrip "Fettbrand".toList] :=
  split_hazard_text_pipeline.2 "Fettbrand".toList (by decide) (by decide)

/-! ### Claim C6 -/

/-- C6 counterexample: splitting an element of a previous split need not give
back the one-element list.  The whitespace-only input `" "` yields `[""]`, and
splitting `""` again yields `[]`; the input `" und , "` yields the fallback
element `"und ,"`, which still contains delimiters and re-splits to
`["und"]`. -/
theorem split_idempotent_cex :
    (split_hazard_text " ".toList = [("" : String).toList] ∧
     split_hazard_text ("" : String).toList ≠ [("" : String).toList]) ∧
    (split_hazard_text " und , ".toList = ["und ,".toList] ∧
     split_hazard_text "und ,".toList = ["und".toList] ∧
     "und".toList ≠ "und ,".toList) := by decide

/-- C6 (amended): every element returned by `split_hazard_text` is
whitespace-trimmed, and splitting it again returns exactly the one-element
list containing it provided it is non-empty and contains no delimiter
occurrence (the fallback element of an all-delimiter/whitespace input may
violate the proviso). -/
theorem split_idempotent_on_clean :
    ∀ (l p : List Char), p ∈ split_hazard_text l →
      pyStrip p = p ∧
      (p ≠ [] → hasCoreB p = false → split_hazard_text p = [p]) := by
  intro l p hp
  have hs := split_hazard_text_mem_pyStrip hp
  refine ⟨hs, fun hne hc => ?_⟩
  rw [split_hazard_text_no_delim hne hc, hs]

theorem split_idempotent_on_clean_witness :
    pyStrip "Hitze".toList = "Hitze".toList ∧
    split_hazard_text "Hitze".toList = ["Hitze".toList] :=
  ⟨(split_idempotent_on_clean "Hitze, Dampf".toList "Hitze".toList (by decide)).1,
   (split_idempotent_on_clean "Hitze, Dampf".toList "Hitze".toList (by decide)).2
     (by decide) (by decide)⟩

/-! ### Claim C9 -/

/-- C9: `split_hazard_text` returns `[]` on the empty string, and `[""]` (the
list containing the empty string) on any non-empty string consisting only of
whitespace. -/
theorem split_empty_vs_whitespace :
    split_hazard_text ("" : String).toList = [] ∧
    (∀ l : List Char, l ≠ [] → (∀ c ∈ l, isPySpace c = true) →
      split_hazard_text l = [("" : String).toList]) := by
  refine ⟨rfl, fun l hl hws => ?_⟩
  have hc := hasCoreB_false_of_all_ws hws
  rw [split_hazard_text_no_delim hl hc, pyStrip_eq_nil_of_all l hws]
  rfl

theorem split_empty_vs_whitespace_witness :
    split_hazard_text "  ".toList = [("" : String).toList] :=
  split_empty_vs_whitespace.2 "  ".toList (by decide) (by decide)

/-! ### JSON round-trip lemmas (claim C2) -/

theorem decodeAll_map_of {α β : Type} (f : β → α) (g : α → Option β)
    (hfg : ∀ x, g (f x) = some x) : ∀ xs, decodeAll g (xs.map f) = some xs := by
  intro xs
  induction xs with
  | nil => rfl
  | cons x l ih => simp [decodeAll, hfg, ih]

theorem measure_roundtrip (m : Measure) :
    measure_from_json (measure_to_json m) = some m := by
  cases m with
  | mk title stop_level responsible due_date status notes => cases due_date <;> rfl

theorem strList_roundtrip (xs : List String) :
    decodeStrList (strListToJson xs) = some xs :=
  decodeAll_map_of J.jstr decodeStr (fun _ => rfl) xs

theorem thresholds_roundtrip (kvs : List (String × List Int)) :
    decodeThresholds (.jobj (kvs.map fun kv => (kv.1, .jarr (kv.2.map J.jint)))) =
      some kvs := by
  unfold decodeThresholds
  refine decodeAll_map_of _ _ (fun kv => ?_) kvs
  have : decodeIntList (J.jarr (kv.2.map J.jint)) = some kv.2 :=
    decodeAll_map_of J.jint decodeInt (fun _ => rfl) kv.2
  simp [this]

theorem hazard_roundtrip (h : Hazard) :
    hazard_from_json (hazard_to_json h) = some h := by
  cases h with
  | mk id area activity hazard sources existing prob sev rv rl ms lr rev dn =>
    have hms : decodeAll measure_from_json (ms.map measure_to_json) = some ms :=
      decodeAll_map_of measure_to_json measure_from_json measure_roundtrip ms
    cases lr <;>
      simp [hazard_to_json, hazard_from_json, hazard_from_json_kvs, decodeMeasuresField,
        decodeExistingField, jGet, jRequire, jLookup, jOfOptStr, decodeStr, decodeInt,
        decodeOptStr, strList_roundtrip, hms]

/-- C2: exporting an `Assessment` with `as_json` and re-importing the result
with `from_json` restores the assessment field for field, including every
nested `Hazard`, every nested `Measure` and the threshold configuration. -/
theorem from_json_as_json_roundtrip (a : Assessment) :
    from_json (as_json a) = some a := by
  cases a with
  | mk company location created_at created_by industry scope_note thresholds
      hazards mpn dn nrh =>
    have hhz : decodeAll hazard_from_json (hazards.map hazard_to_json) = some hazards :=
      decodeAll_map_of hazard_to_json hazard_from_json hazard_roundtrip hazards
    simp [as_json, from_json, decodeHazardsField, jGet, jLookup, decodeStr,
      thresholds_roundtrip, hhz]

/-! ### Claims C7 and C8 -/

/-- C7: the hazard importer accepts either of the two historical field names
for the existing-controls concept: when `"existing_controls"` is absent the
value of the legacy key `"existing"` is used, and when both are absent the
field defaults to the empty list. -/
theorem from_json_existing_fallback :
    (∀ (kvs : List (String × J)) (xs : List String) (h : Hazard),
      jLookup kvs "existing_controls" = none →
      jLookup kvs "existing" = some (strListToJson xs) →
      hazard_from_json (J.jobj kvs) = some h →
      h.existing_controls = xs) ∧
    (∀ (kvs : List (String × J)) (h : Hazard),
      jLookup kvs "existing_controls" = none →
      jLookup kvs "existing" = none →
      hazard_from_json (J.jobj kvs) = some h →
      h.existing_controls = []) := by
  constructor
  · intro kvs xs h h1 h2 hs
    have e : hazard_from_json (J.jobj kvs) = hazard_from_json_kvs kvs := rfl
    rw [e] at hs
    unfold hazard_from_json_kvs at hs
    obtain ⟨ms, -, hs⟩ := Option.bind_eq_some.mp hs
    obtain ⟨i, -, hs⟩ := Option.bind_eq_some.mp hs
    obtain ⟨ar, -, hs⟩ := Option.bind_eq_some.mp hs
    obtain ⟨ac, -, hs⟩ := Option.bind_eq_some.mp hs
    obtain ⟨hz, -, hs⟩ := Option.bind_eq_some.mp hs
    obtain ⟨src, -, hs⟩ := Option.bind_eq_some.mp hs
    obtain ⟨ec, hEc, hs⟩ := Option.bind_eq_some.mp hs
    obtain ⟨prob, -, hs⟩ := Option.bind_eq_some.mp hs
    obtain ⟨sev, -, hs⟩ := Option.bind_eq_some.mp hs
    obtain ⟨rv, -, hs⟩ := Option.bind_eq_some.mp hs
    obtain ⟨rl, -, hs⟩ := Option.bind_eq_some.mp hs
    obtain ⟨lrv, -, hs⟩ := Option.bind_eq_some.mp hs
    obtain ⟨rev, -, hs⟩ := Option.bind_eq_some.mp hs
    obtain ⟨dnn, -, hs⟩ := Option.bind_eq_some.mp hs
    unfold decodeExistingField at hEc
    simp only [h1, h2, strList_roundtrip] at hEc
    obtain rfl : xs = ec := by simpa using hEc
    obtain rfl : _ = h := Option.some.inj hs
    rfl
  · intro kvs h h1 h2 hs
    have e : hazard_from_json (J.jobj kvs) = hazard_from_json_kvs kvs := rfl
    rw [e] at hs
    unfold hazard_from_json_kvs at hs
    obtain ⟨ms, -, hs⟩ := Option.bind_eq_some.mp hs
    obtain ⟨i, -, hs⟩ := Option.bind_eq_some.mp hs
    obtain ⟨ar, -, hs⟩ := Option.bind_eq_some.mp hs
    obtain ⟨ac, -, hs⟩ := Option.bind_eq_some.mp hs
    obtain ⟨hz, -, hs⟩ := Option.bind_eq_some.mp hs
    obtain ⟨src, -, hs⟩ := Option.bind_eq_some.mp hs
    obtain ⟨ec, hEc, hs⟩ := Option.bind_eq_some.mp hs
    obtain ⟨prob, -, hs⟩ := Option.bind_eq_some.mp hs
    obtain ⟨sev, -, hs⟩ := Option.bind_eq_some.mp hs
    obtain ⟨rv, -, hs⟩ := Option.bind_eq_some.mp hs
    obtain ⟨rl, -, hs⟩ := Option.bind_eq_some.mp hs
    obtain ⟨lrv, -, hs⟩ := Option.bind_eq_some.mp hs
    obtain ⟨rev, -, hs⟩ := Option.bind_eq_some.mp hs
    obtain ⟨dnn, -, hs⟩ := Option.bind_eq_some.mp hs
    unfold decodeExistingField at hEc
    simp only [h1, h2] at hEc
    obtain rfl : ([] : List String) = ec := by simpa using hEc
    obtain rfl : _ = h := Option.some.inj hs
    rfl

theorem from_json_existing_fallback_witness :
    (∃ h : Hazard,
      hazard_from_json (J.jobj [("id", J.jstr "H1"), ("area", J.jstr "Küche"),
        ("activity", J.jstr "Spülbereich"), ("hazard", J.jstr "Rutschgefahr"),
        ("existing", strListToJson ["Hand-/Augenschutz"])]) = some h ∧
      h.existing_controls = ["Hand-/Augenschutz"]) ∧
    (∃ h : Hazard,
      hazard_from_json (J.jobj [("id", J.jstr "H2"), ("area", J.jstr "Bar"),
        ("activity", J.jstr "Gläser polieren"), ("hazard", J.jstr "Schnitt")]) = some h ∧
      h.existing_controls = []) := by
  constructor
  · refine ⟨_, rfl, ?_⟩
    exact from_json_existing_fallback.1
      [("id", J.jstr "H1"), ("area", J.jstr "Küche"),
        ("activity", J.jstr "Spülbereich"), ("hazard", J.jstr "Rutschgefahr"),
        ("existing", strListToJson ["Hand-/Augenschutz"])]
      ["Hand-/Augenschutz"] _ rfl rfl rfl
  · refine ⟨_, rfl, ?_⟩
    exact from_json_existing_fallback.2
      [("id", J.jstr "H2"), ("area", J.jstr "Bar"),
        ("activity", J.jstr "Gläser polieren"), ("hazard", J.jstr "Schnitt")]
      _ rfl rfl rfl

/-- C8: a failed JSON parse is an error, and on import every missing optional
field defaults silently: `company`/`location`/`created_at`/`created_by` to
`""`, `industry` to `"Hotel/Gastgewerbe"`, the thresholds to `[6,12,16]`,
`hazards` to `[]`, and per hazard `prob` to 3, `sev` to 3, `risk_value` to 9,
`risk_level` to `"mittel"`, `sources` to `[]`, `reviewer` and
`documentation_note` to `""`. -/
theorem from_json_defaults :
    load_assessment none = none ∧
    from_json (.jobj []) = some
      { company := "", location := "", created_at := "", created_by := "",
        industry := "Hotel/Gastgewerbe", scope_note := "",
        risk_matrix_thresholds := [("thresholds", [6, 12, 16])],
        hazards := [], measures_plan_note := "", documentation_note := "",
        next_review_hint := "" } ∧
    hazard_from_json (.jobj [("id", .jstr "H1"), ("area", .jstr "Küche"),
        ("activity", .jstr "Kochen"), ("hazard", .jstr "Hitze")]) = some
      { id := "H1", area := "Küche", activity := "Kochen", hazard := "Hitze",
        sources := [], existing_controls := [], prob := 3, sev := 3,
        risk_value := 9, risk_level := "mittel", additional_measures := [],
        last_review := none, reviewer := "", documentation_note := "" } :=
  ⟨rfl, rfl, rfl⟩

/-! ### Claim C4 -/

theorem compute_risk_fst (p s : Int) (thresholds : List Int) :
    (compute_risk p s thresholds).1 = p * s := by
  unfold compute_risk
  dsimp only []
  split_ifs <;> rfl

/-- C4 counterexample: a template-inserted hazard always carries
`risk_level = "mittel"`, which is not the banding of its `risk_value` 9 when
the configured thresholds are `[9, 12, 16]` (a configuration the sidebar
allows); there the banding yields `"niedrig"`. -/
theorem template_risk_invariant_cex :
    (template_hazard "HZ-1" "Küche" "Kochen" "Hitze" [] [] []).risk_level = "mittel" ∧
    (compute_risk 3 3 [9, 12, 16]).2 = "niedrig" ∧
    ¬ risk_invariant (template_hazard "HZ-1" "Küche" "Kochen" "Hitze" [] [] [])
        [9, 12, 16] := by
  refine ⟨rfl, rfl, fun hinv => ?_⟩
  exact absurd hinv.2 (by decide)

/-- C4 (amended): every hazard created by template insertion carries
`prob = 3`, `sev = 3`, `risk_value = 9 = 3*3` and `risk_level = "mittel"`, so
it satisfies the risk invariant exactly for configured thresholds with
`t1 < 9 ≤ t2` (as the defaults `[6,12,16]` are); re-scoring a hazard in the
assessment tab via `compute_risk` establishes the invariant for arbitrary
thresholds and inputs. -/
theorem risk_invariant_preserved :
    (∀ (id area activity hz_text : String) (sources existing : List String)
        (ms : List TMeasure) (t1 t2 t3 : Int), t1 < 9 → 9 ≤ t2 →
        risk_invariant (template_hazard id area activity hz_text sources existing ms)
          [t1, t2, t3]) ∧
    (∀ (h : Hazard) (p s : Int) (thresholds : List Int),
        risk_invariant (reassess h p s thresholds) thresholds) := by
  constructor
  · intro id area activity hz sources existing ms t1 t2 t3 h1 h2
    constructor
    · show (9 : Int) = 3 * 3
      norm_num
    · show "mittel" = (compute_risk 3 3 [t1, t2, t3]).2
      rw [compute_risk_eq]
      dsimp only []
      rw [if_neg (by omega), if_pos (by omega)]
  · intro h p s thresholds
    exact ⟨(compute_risk_fst p s thresholds).symm ▸ rfl, rfl⟩

theorem risk_invariant_preserved_witness :
    risk_invariant (template_hazard "HZ-1" "Küche" "Kochen" "Hitze" [] [] [])
      [6, 12, 16] ∧
    risk_invariant
      (reassess (template_hazard "HZ-1" "Küche" "Kochen" "Hitze" [] [] []) 4 5
        [6, 12, 16]) [6, 12, 16] :=
  ⟨risk_invariant_preserved.1 "HZ-1" "Küche" "Kochen" "Hitze" [] [] [] 6 12 16
      (by decide) (by decide),
   risk_invariant_preserved.2 (template_hazard "HZ-1" "Küche" "Kochen" "Hitze" [] [] [])
      4 5 [6, 12, 16]⟩

/-! ### Claim C5 -/

/-- Two hazards sharing the id `"HZ-1"` (ids come from the time-based
`new_id()`, which does not enforce uniqueness). -/
def hzDup1 : Hazard :=
  { id := "HZ-1", area := "Küche", activity := "Kochen", hazard := "Hitze",
    sources := [], existing_controls := [] }

def hzDup2 : Hazard :=
  { id := "HZ-1", area := "Bar", activity := "Zapfen", hazard := "Schnitt",
    sources := [], existing_controls := [] }

def hzA : Hazard :=
  { id := "HZ-1", area := "Küche", activity := "Kochen", hazard := "Hitze",
    sources := [], existing_controls := [] }

def hzB : Hazard :=
  { id := "HZ-2", area := "Bar", activity := "Zapfen", hazard := "Schnitt",
    sources := [], existing_controls := [] }

/-- C5 counterexample: on a list in which two records share the selected id,
the id filter removes both of them, not exactly one. -/
theorem delete_hazard_duplicate_ids_cex :
    delete_hazard [hzDup1, hzDup2] "HZ-1" = [] ∧
    ([hzDup1, hzDup2] : List Hazard).length = 2 := by decide

/-- C5 (amended): on every hazards list whose ids are pairwise distinct,
deleting a selected id removes exactly the one record carrying it and keeps
every other record unchanged and in order. -/
theorem delete_hazard_removes_exactly_one :
    ∀ (hs : List Hazard) (sel_id : String),
      (hs.map Hazard.id).Nodup → sel_id ∈ hs.map Hazard.id →
      ∃ l1 h l2, hs = l1 ++ h :: l2 ∧ h.id = sel_id ∧
        delete_hazard hs sel_id = l1 ++ l2 := by
  intro hs sel
  induction hs with
  | nil => intro _ hmem; simp at hmem
  | cons a t ih =>
    intro hnd hmem
    rw [List.map_cons, List.nodup_cons] at hnd
    rcases List.mem_cons.mp hmem with heq | hmem'
    · refine ⟨[], a, t, rfl, heq.symm, ?_⟩
      unfold delete_hazard
      rw [List.filter_cons]
      have ha : (a.id != sel) = false := by simp [heq]
      have hkeep : t.filter (fun h => h.id != sel) = t := by
        refine List.filter_eq_self.mpr fun x hx => ?_
        have hne : x.id ≠ sel := by
          intro hxx
          exact hnd.1 (heq ▸ hxx ▸ List.mem_map_of_mem Hazard.id hx)
        simp [hne]
      rw [ha, hkeep]
      simp
    · have hne : a.id ≠ sel := fun he => hnd.1 (he ▸ hmem')
      obtain ⟨l1, h, l2, ht, hid, hdel⟩ := ih hnd.2 hmem'
      refine ⟨a :: l1, h, l2, by rw [ht]; rfl, hid, ?_⟩
      unfold delete_hazard
      rw [List.filter_cons]
      have ha : (a.id != sel) = true := by simp [hne]
      rw [ha]
      unfold delete_hazard at hdel
      simp only [if_true, hdel]
      rfl

theorem delete_hazard_removes_exactly_one_witness :
    ∃ l1 h l2, ([hzA, hzB] : List Hazard) = l1 ++ h :: l2 ∧ h.id = "HZ-2" ∧
      delete_hazard [hzA, hzB] "HZ-2" = l1 ++ l2 :=
  delete_hazard_removes_exactly_one [hzA, hzB] "HZ-2" (by decide) (by decide)

/-! ### Claim C10 -/

/-- C10: the template loader's measure normalisation accepts dicts and bare
strings; a string becomes a measure titled with its stripped text and default
STOP level `"O (Organisatorisch)"`, a dict takes its stripped title and its
`stop_level` (defaulting likewise); entries whose title strips to empty, and
entries that are neither dict nor string, are dropped — so every appended
measure has a non-empty title. -/
theorem normalize_measure_robust :
    (∀ (ms : List TMeasure) (m : Measure), m ∈ collect_measures ms → m.title ≠ "") ∧
    (∀ s : String, pyStripStr s ≠ "" →
      collect_measures [TMeasure.str s] =
        [⟨pyStripStr s, "O (Organisatorisch)", "", none, "offen", ""⟩]) ∧
    (∀ s : String, pyStripStr s = "" → collect_measures [TMeasure.str s] = []) ∧
    (∀ (t sl n : Option String), pyStripStr (t.getD "") ≠ "" →
      collect_measures [TMeasure.dict t sl n] =
        [⟨pyStripStr (t.getD ""), sl.getD "O (Organisatorisch)", "", none, "offen",
          n.getD ""⟩]) ∧
    (∀ (t sl n : Option String), pyStripStr (t.getD "") = "" →
      collect_measures [TMeasure.dict t sl n] = []) ∧
    collect_measures [TMeasure.other] = [] := by
  refine ⟨?_, ?_, ?_, ?_, ?_, rfl⟩
  · intro ms m hm
    rcases List.mem_filterMap.mp hm with ⟨x, -, hx⟩
    rcases hnm : normalize_measure x with _ | mm
    · simp [hnm] at hx
    · simp only [hnm] at hx
      split at hx
      · exact absurd hx (by simp)
      · next hne =>
        rw [← Option.some.inj hx]
        exact hne
  · intro s hs
    simp [collect_measures, normalize_measure, hs]
  · intro s hs
    simp [collect_measures, normalize_measure, hs]
  · intro t sl n hne
    simp [collect_measures, normalize_measure, hne]
  · intro t sl n he
    simp [collect_measures, normalize_measure, he]

theorem normalize_measure_robust_witness :
    collect_measures [TMeasure.str " Rettungsplan "] =
      [⟨"Rettungsplan", "O (Organisatorisch)", "", none, "offen", ""⟩] := by
  rw [normalize_measure_robust.2.1 " Rettungsplan " (by decide)]
  decide

